import Mathlib

/-!
Verification of the regression homework script `hw1/hw1-q2.py`.

The script implements three pieces of core logic:

* `solve_analytically` (lines 13-29): closed-form least-squares solution
  computed as `pinv(Xᵀ X) · Xᵀ · y`;
* `LinearRegression` (lines 58-80): a linear model with per-example
  squared-error gradient-descent updates;
* `NeuralRegression` (lines 83-173): a two-layer ReLU network with
  hand-written backpropagation;
* a shared base class `_RegressionModel` (lines 32-55) providing
  `train_epoch` and `evaluate` (RMSE), and a `main` driver (lines 195-252).

The embedding works over `ℚ` (exact arithmetic standing in for IEEE doubles;
none of the claims under verification concern floating-point rounding) with
numpy arrays of static shape rendered as `Fin`-indexed functions and
`Matrix (Fin _) (Fin _) ℚ`.  `np.sqrt` is rendered as `Real.sqrt` on the
rational intermediate value.  The network built by `NeuralRegression.__init__`
always has exactly the two layers `weights = [W0, W1]`, `biases = [b0, b1]`,
so the `for i in range(num_layers)` loops of the source are embedded unrolled
at `num_layers = 2`, keeping the per-iteration expressions of the source.
Mutation of `self` is embedded as explicit state passing: a method that
mutates parameters takes the pre-call parameters and returns the post-call
parameters.
-/

namespace HW1Q2

open Matrix

/-- Lines 13-29, `solve_analytically(X, y)`:
`W = np.linalg.pinv(X.transpose().dot(X)).dot(X.transpose()).dot(y)`.
`np.linalg.pinv` is an external numpy routine (the Moore-Penrose
pseudoinverse); it is modelled here by Mathlib's `Matrix.inv`, which agrees
with the Moore-Penrose pseudoinverse whenever the argument `Xᵀ * X` is
invertible - in particular in the full-rank situation the spec's claim about
this function addresses. -/
noncomputable def solve_analytically {m n : ℕ} (X : Matrix (Fin m) (Fin n) ℚ)
    (y : Fin m → ℚ) : Fin n → ℚ :=
  ((Xᵀ * X)⁻¹ * Xᵀ) *ᵥ y

namespace RegressionModel

/-- Lines 43-44, the body of `_RegressionModel.train_epoch`:
`for x_i, y_i in zip(X, y): self.update_weight(x_i, y_i, **kwargs)`.
The model state `σ` stands for `self`'s parameters, `update_weight` for the
concrete subclass method, and `kw : κ` for the keyword-argument bundle that
is passed unchanged to every call.  This function is the loop over the
already-zipped list. -/
def train_epoch_loop {σ α κ : Type*} (update_weight : σ → α → ℚ → κ → σ)
    (kw : κ) : σ → List (α × ℚ) → σ
  | s, [] => s
  | s, (x_i, y_i) :: rest =>
      train_epoch_loop update_weight kw (update_weight s x_i y_i kw) rest

/-- Lines 38-44, `_RegressionModel.train_epoch(self, X, y, **kwargs)`:
zips the rows of `X` with the targets `y` and folds the loop body over it. -/
def train_epoch {σ α κ : Type*} (update_weight : σ → α → ℚ → κ → σ) (kw : κ)
    (s : σ) (X : List α) (y : List ℚ) : σ :=
  train_epoch_loop update_weight kw s (X.zip y)

/-- Lines 46-55, `_RegressionModel.evaluate(self, X, y)`:
`yhat = self.predict(X); error = yhat - y;
squared_error = np.dot(error, error);
mean_squared_error = squared_error / y.shape[0];
return np.sqrt(mean_squared_error)`.
The subclass method `self.predict` is a parameter. -/
noncomputable def evaluate {n d : ℕ}
    (predict : Matrix (Fin n) (Fin d) ℚ → Fin n → ℚ)
    (X : Matrix (Fin n) (Fin d) ℚ) (y : Fin n → ℚ) : ℝ :=
  let yhat := predict X
  let error := yhat - y
  let squared_error := error ⬝ᵥ error
  let mean_squared_error := squared_error / (n : ℚ)
  Real.sqrt (mean_squared_error : ℝ)

end RegressionModel

namespace LinearRegression

/-- Lines 79-80, `LinearRegression.predict(self, X)` on a batch:
`np.dot(X, w)`.  The state is the weight vector `w` (`self.w`). -/
def predict {n d : ℕ} (w : Fin d → ℚ) (X : Matrix (Fin n) (Fin d) ℚ) :
    Fin n → ℚ :=
  X *ᵥ w

/-- Lines 79-80 again: the same `predict` method applied to a single 1-D row
`x_i` (as `update_weight` does at line 72), where `np.dot(x_i, w)` is the
scalar dot product. -/
def predict_single {d : ℕ} (w x_i : Fin d → ℚ) : ℚ :=
  x_i ⬝ᵥ w

/-- Lines 62-77, `LinearRegression.update_weight(self, x_i, y_i,
learning_rate)`:
`grad_loss = 2*(self.predict(x_i) - y_i);
self.w = self.w - learning_rate * (np.dot(grad_loss, x_i));
return self.w`.
The returned vector is the mutated `self.w`, i.e. the new state. -/
def update_weight {d : ℕ} (w : Fin d → ℚ) (x_i : Fin d → ℚ)
    (y_i learning_rate : ℚ) : Fin d → ℚ :=
  let grad_loss := 2 * (predict_single w x_i - y_i)
  fun j => w j - learning_rate * (grad_loss * x_i j)

/-- `evaluate` inherited from `_RegressionModel` (lines 46-55), with
`self.predict` resolved to `LinearRegression.predict`. -/
noncomputable def evaluate {n d : ℕ} (w : Fin d → ℚ)
    (X : Matrix (Fin n) (Fin d) ℚ) (y : Fin n → ℚ) : ℝ :=
  RegressionModel.evaluate (predict w) X y

end LinearRegression

namespace NeuralRegression

/-- Lines 87-100, the parameters built by `NeuralRegression.__init__`:
`self.weights = [W0, W1]` with `W0 : (n_features, hidden)` and
`W1 : (hidden, 1)`, and `self.biases = [b0, b1]` with `b0 : (hidden,)` and
`b1 : (1,)`.  (The random initial values are irrelevant to the claims; the
structure records an arbitrary parameter state.) -/
structure Params (d hid : ℕ) where
  W0 : Matrix (Fin d) (Fin hid) ℚ
  b0 : Fin hid → ℚ
  W1 : Matrix (Fin hid) (Fin 1) ℚ
  b1 : Fin 1 → ℚ

/-- Lines 109-117, the forward pass inside `update_weight` that retains the
intermediate activations.  The loop `for i in range(num_layers)` runs over
the two layers of `__init__`; iteration `i = 0` computes
`z = np.dot(x_i, W0) + b0` and appends `np.maximum(z, 0)` to `hiddens`;
iteration `i = 1` computes `z = np.dot(hiddens[0], W1) + b1` and sets
`yhat = z`.  Returns `(hiddens[0], yhat)`. -/
def forward_single {d hid : ℕ} (p : Params d hid) (x_i : Fin d → ℚ) :
    (Fin hid → ℚ) × (Fin 1 → ℚ) :=
  let z0 := x_i ᵥ* p.W0 + p.b0
  let h0 := fun j => max (z0 j) 0
  let z1 := h0 ᵥ* p.W1 + p.b1
  (h0, z1)

/-- Lines 102-146, `NeuralRegression.update_weight(self, x_i, y_i,
learning_rate)`.  After the forward pass (lines 109-117, see
`forward_single`), the backward loop `for i in range(num_layers-1, -1, -1)`
runs its `i = 1` iteration with `h = hiddens[0]` and then its `i = 0`
iteration with `h = x_i`:
`grad_z = 2*(yhat - y_i)`;
`grad_weights.append(np.dot(h[:,None], grad_z[:,None].T))`;
`grad_biases.append(grad_z)`;
`grad_h = np.dot(grad_z, self.weights[i].T)`;
`grad_z = grad_h * (h > 0)` (numpy boolean mask, `True ↦ 1`, `False ↦ 0`);
finally lines 141-144 subtract `learning_rate` times each recorded gradient
from the corresponding parameter.  (The `i = 0` iteration's final
`grad_z = grad_h * (x_i > 0)` is computed by the source but never used, so
it is omitted.)  Returns the mutated parameters. -/
def update_weight {d hid : ℕ} (p : Params d hid) (x_i : Fin d → ℚ)
    (y_i learning_rate : ℚ) : Params d hid :=
  let h0 := (forward_single p x_i).1
  let yhat := (forward_single p x_i).2
  let grad_z1 : Fin 1 → ℚ := fun j => 2 * (yhat j - y_i)
  let grad_W1 : Matrix (Fin hid) (Fin 1) ℚ := fun a b => h0 a * grad_z1 b
  let grad_b1 : Fin 1 → ℚ := grad_z1
  let grad_h : Fin hid → ℚ := grad_z1 ᵥ* p.W1ᵀ
  let grad_z0 : Fin hid → ℚ := fun a => grad_h a * (if 0 < h0 a then 1 else 0)
  let grad_W0 : Matrix (Fin d) (Fin hid) ℚ := fun a b => x_i a * grad_z0 b
  let grad_b0 : Fin hid → ℚ := grad_z0
  ⟨fun a b => p.W0 a b - learning_rate * grad_W0 a b,
   fun a => p.b0 a - learning_rate * grad_b0 a,
   fun a b => p.W1 a b - learning_rate * grad_W1 a b,
   fun a => p.b1 a - learning_rate * grad_b1 a⟩

/-- Lines 148-173, `NeuralRegression.predict(self, X)`: the batch forward
pass.  The loop runs over the same two layers; iteration `i = 0` computes
`z = np.dot(X, W0) + b0` (row-broadcast bias add) and appends
`np.maximum(z, 0)`; iteration `i = 1` computes `z = np.dot(hiddens[0], W1) +
b1`; finally `yhat = z.reshape(-1,)` flattens the `(n_points, 1)` result. -/
def predict {n d hid : ℕ} (p : Params d hid) (X : Matrix (Fin n) (Fin d) ℚ) :
    Fin n → ℚ :=
  let z0 : Matrix (Fin n) (Fin hid) ℚ := fun i j => (X * p.W0) i j + p.b0 j
  let h0 : Matrix (Fin n) (Fin hid) ℚ := fun i j => max (z0 i j) 0
  let z1 : Matrix (Fin n) (Fin 1) ℚ := fun i j => (h0 * p.W1) i j + p.b1 j
  fun i => z1 i 0

/-- `evaluate` inherited from `_RegressionModel` (lines 46-55), with
`self.predict` resolved to `NeuralRegression.predict`. -/
noncomputable def evaluate {n d hid : ℕ} (p : Params d hid)
    (X : Matrix (Fin n) (Fin d) ℚ) (y : Fin n → ℚ) : ℝ :=
  RegressionModel.evaluate (predict p) X y

end NeuralRegression

/-! ### Specification-side definitions

The remaining definitions are written from the spec's wording, for comparison
with the source embeddings above (refinement-style claims). -/

/-- Spec-side: the ReLU derivative, "pass-through where the pre-activation
was positive, zero otherwise"; in particular it is `0` at input `0`. -/
def reluDeriv (z : ℚ) : ℚ :=
  if 0 < z then 1 else 0

namespace NeuralRegression

/-- Spec-side: the hidden layer's pre-activation `z₀ = x_i·W₀ + b₀` for a
single example. -/
def preact {d hid : ℕ} (p : Params d hid) (x_i : Fin d → ℚ) : Fin hid → ℚ :=
  x_i ᵥ* p.W0 + p.b0

/-- Spec-side: the hidden layer's post-activation `h₀ = max(z₀, 0)` for a
single example. -/
def hiddenAct {d hid : ℕ} (p : Params d hid) (x_i : Fin d → ℚ) :
    Fin hid → ℚ :=
  fun j => max (preact p x_i j) 0

/-- Spec-side: the network output `ŷ = h₀·W₁ + b₁` for a single example (no
activation on the output layer). -/
def output {d hid : ℕ} (p : Params d hid) (x_i : Fin d → ℚ) : Fin 1 → ℚ :=
  hiddenAct p x_i ᵥ* p.W1 + p.b1

/-- Spec-side: the initial gradient of the squared error w.r.t. the output,
`2·(ŷ_i − y_i)`. -/
def grad_out {d hid : ℕ} (p : Params d hid) (x_i : Fin d → ℚ) (y_i : ℚ) :
    Fin 1 → ℚ :=
  fun j => 2 * (output p x_i j - y_i)

/-- Spec-side: the gradient w.r.t. the hidden activation, propagated from
the output gradient through the transposed weight matrix `W₁ᵀ`. -/
def grad_hiddenAct {d hid : ℕ} (p : Params d hid) (x_i : Fin d → ℚ)
    (y_i : ℚ) : Fin hid → ℚ :=
  grad_out p x_i y_i ᵥ* p.W1ᵀ

/-- Spec-side: the gradient w.r.t. the hidden pre-activation — the ReLU
derivative taken at the pre-activation, times the incoming gradient. -/
def grad_preact {d hid : ℕ} (p : Params d hid) (x_i : Fin d → ℚ) (y_i : ℚ) :
    Fin hid → ℚ :=
  fun j => reluDeriv (preact p x_i j) * grad_hiddenAct p x_i y_i j

/-- The four parameter gradients of the network, bundled. -/
structure Grads (d hid : ℕ) where
  gW0 : Matrix (Fin d) (Fin hid) ℚ
  gb0 : Fin hid → ℚ
  gW1 : Matrix (Fin hid) (Fin 1) ℚ
  gb1 : Fin 1 → ℚ

/-- Spec-side: the gradients of the squared error `(ŷ_i − y_i)²` with
respect to every parameter, exactly as the spec describes them layer by
layer from output to input: each weight gradient is the outer product of
that layer's input activation and the incoming gradient, each bias gradient
is the incoming gradient, and the gradient reaching the hidden layer passes
through `W₁ᵀ` and the ReLU derivative at the pre-activation.  All values are
functions of the parameter state `p` at which the gradients are taken. -/
def specGrads {d hid : ℕ} (p : Params d hid) (x_i : Fin d → ℚ) (y_i : ℚ) :
    Grads d hid :=
  ⟨vecMulVec x_i (grad_preact p x_i y_i),
   grad_preact p x_i y_i,
   vecMulVec (hiddenAct p x_i) (grad_out p x_i y_i),
   grad_out p x_i y_i⟩

end NeuralRegression

/-- Spec-side: row-broadcast addition of a vector to every row of a matrix,
numpy's `M + b` for `M : (n, k)` and `b : (k,)`. -/
def addRowVec {n k : ℕ} (M : Matrix (Fin n) (Fin k) ℚ) (b : Fin k → ℚ) :
    Matrix (Fin n) (Fin k) ℚ :=
  fun i j => M i j + b j

/-- Spec-side: entrywise ReLU `max(·, 0)` of a matrix. -/
def reluMat {n k : ℕ} (M : Matrix (Fin n) (Fin k) ℚ) :
    Matrix (Fin n) (Fin k) ℚ :=
  M.map fun z => max z 0

/-- Spec-side: the arithmetic mean of finitely many rationals. -/
def mean {n : ℕ} (f : Fin n → ℚ) : ℚ :=
  (∑ i, f i) / (n : ℚ)

/-- Spec-side: root-mean-squared error
`sqrt(mean((yhat − y)²))`. -/
noncomputable def rmse {n : ℕ} (yhat y : Fin n → ℚ) : ℝ :=
  Real.sqrt ((mean fun i => (yhat i - y i) ^ 2 : ℚ) : ℝ)

/-! ### The driver (`main`, lines 195-252)

`main` parses the command line with `argparse` (the positional `model`
argument is declared with `choices=['linear_regression', 'nn']`), loads data
through `utils.load_regression_data`, and runs the epoch loop.  `argparse`
and `utils` are external to the file under `src/`, so their behaviour is
modelled from the spec below; the epoch loop itself (lines 228-248) is
embedded from the source. -/

/-- The two accepted values of the positional `model` argument
(line 197: `choices=['linear_regression', 'nn']`). -/
inductive ModelChoice
  | linear_regression
  | nn

/-- Modelled from the spec: `argparse`'s handling of a positional argument
declared with `choices=['linear_regression', 'nn']` (line 197) — an
unrecognized value is a usage error ("invalid model-choice argument must be
rejected before training starts"), a listed value parses to the
corresponding choice.  `argparse` itself is outside `src/`. -/
def parse_model (s : String) : Option ModelChoice :=
  if s = "linear_regression" then some ModelChoice.linear_regression
  else if s = "nn" then some ModelChoice.nn
  else none

/-- Modelled from the spec: the partitioned dataset returned by
`utils.load_regression_data` (outside `src/`) — "a partition into training
and test sets, each a (design-matrix, target-vector) pair with matching row
order". -/
structure Data (ntrain ntest d : ℕ) where
  train_X : Matrix (Fin ntrain) (Fin d) ℚ
  train_y : Fin ntrain → ℚ
  test_X : Matrix (Fin ntest) (Fin d) ℚ
  test_y : Fin ntest → ℚ

/-- The rows of a design matrix paired positionally with their targets, as
`zip(X, y)` sees them when `train_epoch` iterates a `Fin`-indexed batch. -/
def rows {n d : ℕ} (X : Matrix (Fin n) (Fin d) ℚ) : List (Fin d → ℚ) :=
  (List.finRange n).map fun i => X i

/-- The target vector as a list, in row order. -/
def targets {n : ℕ} (y : Fin n → ℚ) : List ℚ :=
  (List.finRange n).map fun i => y i

/-- Lines 233-248, the body of the training loop, one entry of the returned
list per epoch: reorder `train_X`/`train_y` by this epoch's random
permutation (lines 235-237, the fresh permutations are supplied as the input
list `perms`, one per epoch), call `train_epoch` (line 238), then record
`(model.evaluate(train_X, train_y), model.evaluate(test_X, test_y))`
(lines 241-242, the train evaluation sees the reordered data).  The reordered
data persists into the next epoch, as in the source. -/
noncomputable def run_epochs {σ : Type*} {ntrain d : ℕ}
    (train_epoch : σ → Matrix (Fin ntrain) (Fin d) ℚ → (Fin ntrain → ℚ) → σ)
    (eval_train : σ → Matrix (Fin ntrain) (Fin d) ℚ → (Fin ntrain → ℚ) → ℝ)
    (eval_test : σ → ℝ) :
    List (Equiv.Perm (Fin ntrain)) → σ → Matrix (Fin ntrain) (Fin d) ℚ →
      (Fin ntrain → ℚ) → List (ℝ × ℝ)
  | [], _, _, _ => []
  | g :: perms, s, X, y =>
      let X' : Matrix (Fin ntrain) (Fin d) ℚ := fun i => X (g i)
      let y' : Fin ntrain → ℚ := fun i => y (g i)
      let s' := train_epoch s X' y'
      (eval_train s' X' y', eval_test s') ::
        run_epochs train_epoch eval_train eval_test perms s' X' y'

/-- Lines 195-252, `main`, modelled as a function of its external inputs:
the positional `model` argument string, the learning rate, the loaded data
(see `Data`), the randomly initialized network parameters, and the per-epoch
random shuffles (`perms`, whose length is the configured number of epochs).
An unrecognized `model` value is rejected by `argparse` as a usage error
(`Except.error ()`, a nonzero exit) before any training state is touched;
otherwise the training loop runs to completion and the per-epoch
`(train loss, test loss)` pairs that lines 241-248 record and print are
returned.  The linear model starts from the all-zeros weight vector
(line 60). -/
noncomputable def main {ntrain ntest d hid : ℕ} (model_arg : String)
    (learning_rate : ℚ) (data : Data ntrain ntest d)
    (init_nn : NeuralRegression.Params d hid)
    (perms : List (Equiv.Perm (Fin ntrain))) : Except Unit (List (ℝ × ℝ)) :=
  match parse_model model_arg with
  | none => Except.error ()
  | some ModelChoice.linear_regression =>
      Except.ok (run_epochs
        (fun w X y => RegressionModel.train_epoch
          (fun w x_i y_i lr => LinearRegression.update_weight w x_i y_i lr)
          learning_rate w (rows X) (targets y))
        (fun w X y => LinearRegression.evaluate w X y)
        (fun w => LinearRegression.evaluate w data.test_X data.test_y)
        perms (fun _ => 0) data.train_X data.train_y)
  | some ModelChoice.nn =>
      Except.ok (run_epochs
        (fun p X y => RegressionModel.train_epoch
          (fun p x_i y_i lr => NeuralRegression.update_weight p x_i y_i lr)
          learning_rate p (rows X) (targets y))
        (fun p X y => NeuralRegression.evaluate p X y)
        (fun p => NeuralRegression.evaluate p data.test_X data.test_y)
        perms init_nn data.train_X data.train_y)


/-! ### Helper lemmas -/

open NeuralRegression

-- The numpy boolean mask `(h > 0)` taken at the post-activation `h = max(z, 0)`
-- coincides with the spec's ReLU derivative taken at the pre-activation `z`.
theorem relu_mask_eq (z g : ℚ) :
    g * (if 0 < max z 0 then 1 else 0) = reluDeriv z * g := by
  by_cases h : 0 < z
  · simp [reluDeriv, h, max_eq_left h.le]
  · have hz : max z 0 = 0 := max_eq_right (le_of_not_lt h)
    simp [reluDeriv, h, hz]

theorem dot_self_nonneg {n : ℕ} (v : Fin n → ℚ) : 0 ≤ v ⬝ᵥ v :=
  Finset.sum_nonneg fun i _ => mul_self_nonneg (v i)

-- The shared `_RegressionModel.evaluate` body equals the spec's RMSE formula.
theorem evaluate_eq_rmse {n d : ℕ}
    (predict : Matrix (Fin n) (Fin d) ℚ → Fin n → ℚ)
    (X : Matrix (Fin n) (Fin d) ℚ) (y : Fin n → ℚ) :
    RegressionModel.evaluate predict X y = rmse (predict X) y := by
  show Real.sqrt (((predict X - y) ⬝ᵥ (predict X - y) / (n : ℚ) : ℚ) : ℝ)
    = Real.sqrt ((mean fun i => (predict X i - y i) ^ 2 : ℚ) : ℝ)
  congr 2
  unfold mean
  congr 1
  simp [Matrix.dotProduct, pow_two]

-- On a non-empty batch, the shared `evaluate` vanishes exactly on perfect
-- predictions.
theorem evaluate_eq_zero_iff {n d : ℕ} (hn : 0 < n)
    (predict : Matrix (Fin n) (Fin d) ℚ → Fin n → ℚ)
    (X : Matrix (Fin n) (Fin d) ℚ) (y : Fin n → ℚ) :
    RegressionModel.evaluate predict X y = 0 ↔ predict X = y := by
  show Real.sqrt (((predict X - y) ⬝ᵥ (predict X - y) / (n : ℚ) : ℚ) : ℝ) = 0 ↔ _
  rw [Real.sqrt_eq_zero']
  have hn' : (n : ℚ) ≠ 0 := Nat.cast_ne_zero.mpr hn.ne'
  constructor
  · intro h
    have hle : (predict X - y) ⬝ᵥ (predict X - y) / (n : ℚ) ≤ 0 := by exact_mod_cast h
    have hq0 : (predict X - y) ⬝ᵥ (predict X - y) / (n : ℚ) = 0 :=
      le_antisymm hle (div_nonneg (dot_self_nonneg _) (Nat.cast_nonneg n))
    have hd := (div_eq_zero_iff.mp hq0).resolve_right hn'
    exact sub_eq_zero.mp (Matrix.dotProduct_self_eq_zero.mp hd)
  · intro h
    rw [h, sub_self]
    simp

-- The shared `evaluate` is invariant under permuting rows and targets in
-- lockstep, for any predictor that acts rowwise along the permutation.
theorem evaluate_perm {n d : ℕ}
    (predict : Matrix (Fin n) (Fin d) ℚ → Fin n → ℚ)
    (X X' : Matrix (Fin n) (Fin d) ℚ) (y : Fin n → ℚ) (g : Equiv.Perm (Fin n))
    (hp : ∀ i, predict X' i = predict X (g i)) :
    RegressionModel.evaluate predict X' (fun i => y (g i))
      = RegressionModel.evaluate predict X y := by
  show Real.sqrt (((predict X' - fun i => y (g i)) ⬝ᵥ _ / (n : ℚ) : ℚ) : ℝ)
    = Real.sqrt (((predict X - y) ⬝ᵥ (predict X - y) / (n : ℚ) : ℚ) : ℝ)
  congr 3
  simp only [Matrix.dotProduct, Pi.sub_apply, hp]
  exact Equiv.sum_comp g fun i => (predict X i - y i) * (predict X i - y i)

-- A design matrix of full column rank has an invertible Gram matrix `Xᵀ X`.
theorem gram_isUnit {m n : ℕ} (X : Matrix (Fin m) (Fin n) ℚ) (hr : X.rank = n) :
    IsUnit (Xᵀ * X).det := by
  rw [isUnit_iff_ne_zero]
  intro hdet
  obtain ⟨v, hv0, hXv⟩ := Matrix.exists_mulVec_eq_zero_iff.mpr hdet
  have hXv' : X *ᵥ v = 0 := by
    have h1 : v ⬝ᵥ ((Xᵀ * X) *ᵥ v) = 0 := by rw [hXv, Matrix.dotProduct_zero]
    rw [← Matrix.mulVec_mulVec, Matrix.dotProduct_mulVec, Matrix.vecMul_transpose,
      Matrix.dotProduct_self_eq_zero] at h1
    exact h1
  have hker : LinearMap.ker X.mulVecLin = ⊥ := by
    have hrn := LinearMap.finrank_range_add_finrank_ker X.mulVecLin
    rw [show Module.finrank ℚ (LinearMap.range X.mulVecLin) = X.rank from rfl, hr,
      Module.finrank_pi, Fintype.card_fin] at hrn
    exact Submodule.finrank_eq_zero.mp (by omega)
  have hv : v = 0 := by
    have hmem : v ∈ LinearMap.ker X.mulVecLin := by
      simp [LinearMap.mem_ker, Matrix.mulVecLin_apply, hXv']
    rw [hker] at hmem
    simpa using hmem
  exact hv0 hv

-- The for-loop of `train_epoch` is a left fold over the zipped examples.
theorem train_epoch_loop_eq_foldl {σ α κ : Type*} (upd : σ → α → ℚ → κ → σ)
    (kw : κ) (l : List (α × ℚ)) (s : σ) :
    RegressionModel.train_epoch_loop upd kw s l
      = l.foldl (fun st q => upd st q.1 q.2 kw) s := by
  induction l generalizing s with
  | nil => rfl
  | cons q rest ih =>
      cases q with
      | mk x yv => exact ih (upd s x yv kw)

-- The training loop records exactly one loss pair per supplied epoch shuffle.
theorem run_epochs_length {σ : Type*} {ntrain d : ℕ}
    (tr : σ → Matrix (Fin ntrain) (Fin d) ℚ → (Fin ntrain → ℚ) → σ)
    (evTr : σ → Matrix (Fin ntrain) (Fin d) ℚ → (Fin ntrain → ℚ) → ℝ)
    (evTe : σ → ℝ) (perms : List (Equiv.Perm (Fin ntrain))) (s : σ)
    (X : Matrix (Fin ntrain) (Fin d) ℚ) (y : Fin ntrain → ℚ) :
    (run_epochs tr evTr evTe perms s X y).length = perms.length := by
  induction perms generalizing s X y with
  | nil => rfl
  | cons g rest ih => simp only [run_epochs, List.length_cons, ih]

/-! ### The claims -/

/-- Claim C1: on every single example and learning rate,
`NeuralRegression.update_weight` replaces each weight matrix and bias vector
by its pre-update value minus `learning_rate` times the gradient of the
squared error `(ŷ_i − y_i)²` with respect to that parameter, where the
gradients are exactly the spec's layer-by-layer backward quantities
(`specGrads`: initial gradient `2·(ŷ_i − y_i)`, weight gradients as outer
products of the layer input with the incoming gradient, bias gradients equal
to the incoming gradient, propagation through `W₁ᵀ` and the ReLU derivative
at the pre-activation), and all four gradients are evaluated at the same
pre-update parameter state `p` — not sequentially re-derived. -/
theorem nn_update_weight_is_simultaneous_gradient_step {d hid : ℕ}
    (p : Params d hid) (x_i : Fin d → ℚ) (y_i learning_rate : ℚ) :
    (update_weight p x_i y_i learning_rate).W0
        = p.W0 - learning_rate • (specGrads p x_i y_i).gW0 ∧
      (update_weight p x_i y_i learning_rate).b0
        = p.b0 - learning_rate • (specGrads p x_i y_i).gb0 ∧
      (update_weight p x_i y_i learning_rate).W1
        = p.W1 - learning_rate • (specGrads p x_i y_i).gW1 ∧
      (update_weight p x_i y_i learning_rate).b1
        = p.b1 - learning_rate • (specGrads p x_i y_i).gb1 := by
  refine ⟨?_, ?_, rfl, rfl⟩
  · funext a b
    show p.W0 a b - learning_rate *
        (x_i a * (grad_hiddenAct p x_i y_i b *
          (if 0 < max (preact p x_i b) 0 then 1 else 0)))
      = p.W0 a b - learning_rate *
        (x_i a * (reluDeriv (preact p x_i b) * grad_hiddenAct p x_i y_i b))
    rw [relu_mask_eq]
  · funext a
    show p.b0 a - learning_rate *
        (grad_hiddenAct p x_i y_i a *
          (if 0 < max (preact p x_i a) 0 then 1 else 0))
      = p.b0 a - learning_rate *
        (reluDeriv (preact p x_i a) * grad_hiddenAct p x_i y_i a)
    rw [relu_mask_eq]

/-- Claim C2: on every single example and learning rate,
`LinearRegression.update_weight` sets the weight vector to
`w − learning_rate · 2·(x_i ⬝ w − y_i) · x_i` with `w` the pre-update
weights.  (In this state-passing embedding, the returned vector is the
mutated `self.w`; mutation and return value coincide by construction, as in
the source's `self.w = ...; return self.w`.) -/
theorem lin_update_weight_formula {d : ℕ} (w x_i : Fin d → ℚ)
    (y_i learning_rate : ℚ) :
    LinearRegression.update_weight w x_i y_i learning_rate
      = w - learning_rate • (2 * (x_i ⬝ᵥ w - y_i)) • x_i := by
  funext j
  simp [LinearRegression.update_weight, LinearRegression.predict_single,
    Pi.smul_apply, Pi.sub_apply, smul_eq_mul]

/-- Claim C3: on every input matrix of `n` rows, `NeuralRegression.predict`
returns the flat vector (of length `n`, by its type) obtained by the
two-layer forward pass `z₀ = X·W₀ + b₀`, `h₀ = max(z₀, 0)`,
`z₁ = h₀·W₁ + b₁`, with no activation applied to the output layer — entry
`i` of the result is entry `(i, 0)` of `z₁`.  (The embedding is a pure
function of the parameters, which are therefore left unchanged.) -/
theorem nn_predict_two_layer_formula {n d hid : ℕ} (p : Params d hid)
    (X : Matrix (Fin n) (Fin d) ℚ) :
    NeuralRegression.predict p X
      = fun i => addRowVec (reluMat (addRowVec (X * p.W0) p.b0) * p.W1) p.b1 i 0 :=
  rfl

/-- Claim C4: for every design matrix of full column rank with at least one
row, `solve_analytically` returns a weight vector (of length `n`, by its
type) satisfying the normal equations `Xᵀ(Xw − y) = 0` — exactly, hence to
within any numerical tolerance — and minimizing the squared residual
`‖Xw − y‖²` over all weight vectors.  (`np.linalg.pinv` is modelled by the
matrix inverse, with which the Moore-Penrose pseudoinverse agrees on the
invertible Gram matrix `Xᵀ X` that full rank guarantees.) -/
theorem solve_analytically_satisfies_normal_equations {m n : ℕ}
    (X : Matrix (Fin m) (Fin n) ℚ) (y : Fin m → ℚ) (hm : 0 < m)
    (hr : X.rank = n) :
    Xᵀ *ᵥ (X *ᵥ solve_analytically X y - y) = 0 ∧
      ∀ v : Fin n → ℚ,
        (X *ᵥ solve_analytically X y - y) ⬝ᵥ (X *ᵥ solve_analytically X y - y)
          ≤ (X *ᵥ v - y) ⬝ᵥ (X *ᵥ v - y) := by
  have hdet := gram_isUnit X hr
  have hNE : Xᵀ *ᵥ (X *ᵥ solve_analytically X y - y) = 0 := by
    unfold solve_analytically
    rw [Matrix.mulVec_sub, Matrix.mulVec_mulVec, Matrix.mulVec_mulVec,
      ← Matrix.mul_assoc, Matrix.mul_nonsing_inv _ hdet, Matrix.one_mul,
      sub_self]
  refine ⟨hNE, fun v => ?_⟩
  have key : ∀ u : Fin n → ℚ,
      (X *ᵥ u) ⬝ᵥ (X *ᵥ solve_analytically X y - y) = 0 := by
    intro u
    calc (X *ᵥ u) ⬝ᵥ (X *ᵥ solve_analytically X y - y)
        = (X *ᵥ solve_analytically X y - y) ⬝ᵥ (X *ᵥ u) :=
          Matrix.dotProduct_comm _ _
      _ = ((X *ᵥ solve_analytically X y - y) ᵥ* X) ⬝ᵥ u :=
          Matrix.dotProduct_mulVec _ X u
      _ = (Xᵀ *ᵥ (X *ᵥ solve_analytically X y - y)) ⬝ᵥ u := by
          rw [Matrix.mulVec_transpose]
      _ = 0 := by rw [hNE, Matrix.zero_dotProduct]
  have hdecomp : X *ᵥ v - y
      = (X *ᵥ solve_analytically X y - y) + X *ᵥ (v - solve_analytically X y) := by
    rw [Matrix.mulVec_sub]
    abel
  rw [hdecomp, Matrix.add_dotProduct, Matrix.dotProduct_add,
    Matrix.dotProduct_add, key (v - solve_analytically X y),
    Matrix.dotProduct_comm _ (X *ᵥ (v - solve_analytically X y)),
    key (v - solve_analytically X y)]
  simpa using dot_self_nonneg (X *ᵥ (v - solve_analytically X y))

/-- Witness for C4 at the concrete full-rank system `X = 1`, `y = 3` (one
row, one feature). -/
theorem solve_analytically_satisfies_normal_equations_witness :
    (0 < 1 ∧ (1 : Matrix (Fin 1) (Fin 1) ℚ).rank = 1) ∧
      (1 : Matrix (Fin 1) (Fin 1) ℚ)ᵀ *ᵥ
          ((1 : Matrix (Fin 1) (Fin 1) ℚ) *ᵥ
              solve_analytically (1 : Matrix (Fin 1) (Fin 1) ℚ) (fun _ => 3) -
            fun _ => 3)
        = 0 :=
  ⟨⟨by decide, by simp⟩,
   (solve_analytically_satisfies_normal_equations
      (1 : Matrix (Fin 1) (Fin 1) ℚ) (fun _ => 3) (by decide) (by simp)).1⟩

/-- Claim C5: on every non-empty dataset, the shared `evaluate` of both
models returns `sqrt(mean((predict(X) − y)²))`, the root-mean-squared error
computed through the batch `predict` of the concrete model. -/
theorem evaluate_is_rmse_of_batch_predict {n d hid : ℕ} (hn : 0 < n)
    (w : Fin d → ℚ) (p : Params d hid) (X : Matrix (Fin n) (Fin d) ℚ)
    (y : Fin n → ℚ) :
    LinearRegression.evaluate w X y = rmse (LinearRegression.predict w X) y ∧
      NeuralRegression.evaluate p X y = rmse (NeuralRegression.predict p X) y :=
  ⟨evaluate_eq_rmse (LinearRegression.predict w) X y,
   evaluate_eq_rmse (NeuralRegression.predict p) X y⟩

/-- Witness for C5 on the concrete one-point dataset `X = [[2]]`, `y = [3]`
with linear weights `w = [1]`. -/
theorem evaluate_is_rmse_of_batch_predict_witness :
    0 < 1 ∧
      LinearRegression.evaluate ((fun _ => 1) : Fin 1 → ℚ)
          ((fun _ _ => 2) : Matrix (Fin 1) (Fin 1) ℚ) ((fun _ => 3) : Fin 1 → ℚ)
        = rmse
            (LinearRegression.predict ((fun _ => 1) : Fin 1 → ℚ)
              ((fun _ _ => 2) : Matrix (Fin 1) (Fin 1) ℚ))
            ((fun _ => 3) : Fin 1 → ℚ) :=
  ⟨by decide,
   (evaluate_is_rmse_of_batch_predict (by decide) ((fun _ => 1) : Fin 1 → ℚ)
      (⟨fun _ _ => 1, fun _ => 0, fun _ _ => 1, fun _ => 0⟩ : Params 1 1)
      ((fun _ _ => 2) : Matrix (Fin 1) (Fin 1) ℚ)
      ((fun _ => 3) : Fin 1 → ℚ)).1⟩

/-- Claim C6: on every non-empty dataset, both models' `evaluate` returns 0
exactly when the batch predictions equal the targets entrywise, and is
invariant under applying one and the same permutation to the rows of `X`
and the entries of `y`. -/
theorem evaluate_zero_iff_exact_and_perm_invariant {n d hid : ℕ} (hn : 0 < n)
    (w : Fin d → ℚ) (p : Params d hid) (X : Matrix (Fin n) (Fin d) ℚ)
    (y : Fin n → ℚ) (g : Equiv.Perm (Fin n)) :
    (LinearRegression.evaluate w X y = 0 ↔ LinearRegression.predict w X = y) ∧
      LinearRegression.evaluate w (fun i => X (g i)) (fun i => y (g i))
        = LinearRegression.evaluate w X y ∧
      (NeuralRegression.evaluate p X y = 0 ↔ NeuralRegression.predict p X = y) ∧
      NeuralRegression.evaluate p (fun i => X (g i)) (fun i => y (g i))
        = NeuralRegression.evaluate p X y :=
  ⟨evaluate_eq_zero_iff hn (LinearRegression.predict w) X y,
   evaluate_perm (LinearRegression.predict w) X _ y g fun _ => rfl,
   evaluate_eq_zero_iff hn (NeuralRegression.predict p) X y,
   evaluate_perm (NeuralRegression.predict p) X _ y g fun _ => rfl⟩

/-- Witness for C6 on the one-point dataset `X = [[2]]`, `y = [3]`, linear
weights `w = [1]` and the identity permutation. -/
theorem evaluate_zero_iff_exact_and_perm_invariant_witness :
    0 < 1 ∧
      (LinearRegression.evaluate ((fun _ => 1) : Fin 1 → ℚ)
            ((fun _ _ => 2) : Matrix (Fin 1) (Fin 1) ℚ)
            ((fun _ => 3) : Fin 1 → ℚ) = 0 ↔
        LinearRegression.predict ((fun _ => 1) : Fin 1 → ℚ)
            ((fun _ _ => 2) : Matrix (Fin 1) (Fin 1) ℚ)
          = ((fun _ => 3) : Fin 1 → ℚ)) :=
  ⟨by decide,
   (evaluate_zero_iff_exact_and_perm_invariant (by decide)
      ((fun _ => 1) : Fin 1 → ℚ)
      (⟨fun _ _ => 1, fun _ => 0, fun _ _ => 1, fun _ => 0⟩ : Params 1 1)
      ((fun _ _ => 2) : Matrix (Fin 1) (Fin 1) ℚ) ((fun _ => 3) : Fin 1 → ℚ)
      (Equiv.refl (Fin 1))).1⟩

/-- Claim C7: `train_epoch` leaves the model in the state obtained by
sequentially left-folding `update_weight` over the `(x_i, y_i)` pairs of
`zip(X, y)` in their given order, one call per example, with the keyword
configuration `kw` forwarded unchanged to every call — so each update sees
the state produced by the previous one. -/
theorem train_epoch_is_sequential_fold {σ α κ : Type*}
    (update_weight : σ → α → ℚ → κ → σ) (kw : κ) (s : σ) (X : List α)
    (y : List ℚ) :
    RegressionModel.train_epoch update_weight kw s X y
      = (X.zip y).foldl (fun st q => update_weight st q.1 q.2 kw) s :=
  train_epoch_loop_eq_foldl update_weight kw (X.zip y) s

/-- Claim C8: the ReLU mask in `NeuralRegression.update_weight` passes the
backpropagated gradient through exactly where the hidden pre-activation is
strictly positive and zeroes it otherwise; in particular, at a
pre-activation of exactly zero the ReLU derivative is treated as zero, and
the corresponding bias entry and weight column are left unchanged. -/
theorem nn_update_weight_relu_mask {d hid : ℕ} (p : Params d hid)
    (x_i : Fin d → ℚ) (y_i learning_rate : ℚ) (j : Fin hid) :
    (0 < preact p x_i j →
        (update_weight p x_i y_i learning_rate).b0 j
          = p.b0 j - learning_rate * grad_hiddenAct p x_i y_i j) ∧
      (preact p x_i j ≤ 0 →
        (update_weight p x_i y_i learning_rate).b0 j = p.b0 j ∧
          ∀ a, (update_weight p x_i y_i learning_rate).W0 a j = p.W0 a j) ∧
      (preact p x_i j = 0 →
        (update_weight p x_i y_i learning_rate).b0 j = p.b0 j) := by
  have hb : (update_weight p x_i y_i learning_rate).b0 j
      = p.b0 j - learning_rate * (grad_hiddenAct p x_i y_i j *
          (if 0 < max (preact p x_i j) 0 then 1 else 0)) := rfl
  have hW : ∀ a, (update_weight p x_i y_i learning_rate).W0 a j
      = p.W0 a j - learning_rate * (x_i a * (grad_hiddenAct p x_i y_i j *
          (if 0 < max (preact p x_i j) 0 then 1 else 0))) := fun a => rfl
  refine ⟨fun h => ?_, fun h => ⟨?_, fun a => ?_⟩, fun h => ?_⟩
  · rw [hb, if_pos (lt_max_iff.mpr (Or.inl h)), mul_one]
  · rw [hb, if_neg (by rw [not_lt]; exact max_le h le_rfl), mul_zero, mul_zero,
      sub_zero]
  · rw [hW a, if_neg (by rw [not_lt]; exact max_le h le_rfl), mul_zero,
      mul_zero, mul_zero, sub_zero]
  · rw [hb, if_neg (by rw [not_lt]; exact max_le h.le le_rfl), mul_zero,
      mul_zero, sub_zero]

/-- Witness for C8: a concrete state with hidden pre-activation exactly zero
(`x_i = [0]`, `b₀ = [0]`), where the incoming gradient is nonzero yet the
bias is left unchanged by the update. -/
theorem nn_update_weight_relu_mask_witness :
    preact (⟨fun _ _ => 1, fun _ => 0, fun _ _ => 3, fun _ => 1⟩ : Params 1 1)
        (fun _ => 0) 0 = 0 ∧
      (update_weight
          (⟨fun _ _ => 1, fun _ => 0, fun _ _ => 3, fun _ => 1⟩ : Params 1 1)
          (fun _ => 0) 5 (1 / 10)).b0 0
        = (⟨fun _ _ => 1, fun _ => 0, fun _ _ => 3, fun _ => 1⟩ : Params 1 1).b0 0 :=
  ⟨by simp [preact, Matrix.vecMul, Matrix.dotProduct],
   (nn_update_weight_relu_mask
      (⟨fun _ _ => 1, fun _ => 0, fun _ _ => 3, fun _ => 1⟩ : Params 1 1)
      (fun _ => 0) 5 (1 / 10) 0).2.2
     (by simp [preact, Matrix.vecMul, Matrix.dotProduct])⟩

/-- Claim C9: a `model` argument that is neither `linear_regression` nor
`nn` makes `main` fail with a usage error (for every dataset, learning rate
and epoch configuration — so before any training computation); a valid
argument makes the run complete, returning one `(train loss, test loss)`
pair per configured epoch. -/
theorem main_rejects_invalid_model_choice {ntrain ntest d hid : ℕ}
    (model_arg : String) (learning_rate : ℚ) (data : Data ntrain ntest d)
    (init_nn : Params d hid) (perms : List (Equiv.Perm (Fin ntrain))) :
    (model_arg ≠ "linear_regression" → model_arg ≠ "nn" →
        main model_arg learning_rate data init_nn perms = Except.error ()) ∧
      ((model_arg = "linear_regression" ∨ model_arg = "nn") →
        ∃ losses,
          main model_arg learning_rate data init_nn perms = Except.ok losses ∧
            losses.length = perms.length) := by
  constructor
  · intro h1 h2
    unfold main parse_model
    rw [if_neg h1, if_neg h2]
  · rintro (h | h) <;> subst h
    · exact ⟨_, rfl, run_epochs_length _ _ _ perms _ _ _⟩
    · exact ⟨_, rfl, run_epochs_length _ _ _ perms _ _ _⟩

/-- Witness for C9: the invalid choice `svm` is rejected on a concrete
configuration, and the valid choice `nn` runs one configured epoch to
completion with one loss pair recorded. -/
theorem main_rejects_invalid_model_choice_witness :
    main "svm" 1
        (⟨fun _ _ => 1, fun _ => 1, fun _ _ => 1, fun _ => 1⟩ : Data 1 1 1)
        (⟨fun _ _ => 1, fun _ => 0, fun _ _ => 1, fun _ => 0⟩ : Params 1 1) []
      = Except.error () ∧
      ∃ losses,
        main "nn" 1
            (⟨fun _ _ => 1, fun _ => 1, fun _ _ => 1, fun _ => 1⟩ : Data 1 1 1)
            (⟨fun _ _ => 1, fun _ => 0, fun _ _ => 1, fun _ => 0⟩ : Params 1 1)
            [Equiv.refl (Fin 1)]
          = Except.ok losses ∧ losses.length = 1 :=
  ⟨(main_rejects_invalid_model_choice "svm" 1
      (⟨fun _ _ => 1, fun _ => 1, fun _ _ => 1, fun _ => 1⟩ : Data 1 1 1)
      (⟨fun _ _ => 1, fun _ => 0, fun _ _ => 1, fun _ => 0⟩ : Params 1 1)
      []).1 (by decide) (by decide),
   (main_rejects_invalid_model_choice "nn" 1
      (⟨fun _ _ => 1, fun _ => 1, fun _ _ => 1, fun _ => 1⟩ : Data 1 1 1)
      (⟨fun _ _ => 1, fun _ => 0, fun _ _ => 1, fun _ => 0⟩ : Params 1 1)
      [Equiv.refl (Fin 1)]).2 (Or.inr rfl)⟩

/-- Claim C10: for every parameter state and every row of every batch, the
activation-retaining forward pass coded inside `update_weight`
(`forward_single`) and the independently coded batch forward pass of
`predict` produce the same scalar output. -/
theorem nn_forward_passes_agree {n d hid : ℕ} (p : Params d hid)
    (X : Matrix (Fin n) (Fin d) ℚ) (i : Fin n) :
    NeuralRegression.predict p X i = (forward_single p (X i)).2 0 :=
  rfl

end HW1Q2
